import Mathlib

/-!
Formal model of `generate.py`, the Android Sources Eclipse plugin site
generator.  Each definition below transcribes the Python function of the
same name (loop state is passed explicitly, exceptions become `Except` or
`Option` results, the filesystem is an explicit value).  The claim
theorems follow the definitions.
-/

deriving instance DecidableEq for Except

namespace AndSource

/-- ASCII whitespace removed by Python's `str.strip()`
(space, tab, newline, carriage return, vertical tab, form feed). -/
def isPyWs (c : Char) : Bool :=
  c = ' ' || c = '\t' || c = '\n' || c = '\r' || c = Char.ofNat 11 || c = Char.ofNat 12

/-- Python `str.strip()` on a character list. -/
def stripChars (l : List Char) : List Char :=
  ((l.dropWhile isPyWs).reverse.dropWhile isPyWs).reverse

/-- Python `str.strip()`. -/
def pstrip (s : String) : String := ⟨stripChars s.toList⟩

/-- The digit set of the unicode-escape scanner:
`character not in '0123456789ABCDEF'` in `split_property_line`. -/
def isUpperHex (c : Char) : Bool :=
  ['0', '1', '2', '3', '4', '5', '6', '7', '8', '9',
   'A', 'B', 'C', 'D', 'E', 'F'].contains c

/-- Value of one uppercase hexadecimal digit. -/
def hexDigitVal (c : Char) : Nat := if c.isDigit then c.toNat - 48 else c.toNat - 55

/-- `int(hex_string, 16)` on the scanner's digit buffer. -/
def hexVal (l : List Char) : Nat := l.foldl (fun a c => a * 16 + hexDigitVal c) 0

/-- Loop state of `split_property_line`, one field per Python local.
`in_key` is initialized to `True` and — exactly as in the source —
never assigned again. -/
structure SplitState where
  key : List Char
  current_line : List Char
  in_key : Bool
  escaped : Bool
  hex_code : Bool
  hex_string : List Char

/-- The unguarded tail of the loop body of `split_property_line`
(the `if character == '\\': ... elif character in ':=': ... else: ...`
chain that is reached when neither the `hex_code` nor the `escaped`
branch consumed the character). -/
def splitCommon (st : SplitState) (c : Char) : Option SplitState :=
  if c = '\\' then
    some { st with escaped := true }
  else if c = ':' ∨ c = '=' then
    if st.in_key = false then none
    else some { st with key := stripChars st.current_line, current_line := [] }
  else
    let st1 := if st.escaped then
        { st with current_line := st.current_line ++ ['\\'], escaped := false }
      else st
    some { st1 with current_line := st1.current_line ++ [c] }

/-- One iteration of the `for character in line` loop of
`split_property_line`.  Returning `none` models `return None`. -/
def splitStep (st : SplitState) (c : Char) : Option SplitState :=
  if st.hex_code then
    if st.hex_string.length = 4 then
      splitCommon
        { st with
          current_line := st.current_line ++ (Nat.repr (hexVal st.hex_string)).toList,
          hex_code := false, hex_string := [] } c
    else if isUpperHex c then
      some { st with hex_string := st.hex_string ++ [c] }
    else none
  else if st.escaped then
    if c = ':' ∨ c = '=' then
      some { st with escaped := false, current_line := st.current_line ++ [c] }
    else if c = 'u' then
      some { st with hex_code := true, hex_string := [], escaped := false }
    else splitCommon st c
  else splitCommon st c

/-- `split_property_line(line)`: `none` models `return None`. -/
def split_property_line (line : String) : Option (String × String) :=
  match line.toList.foldlM splitStep ⟨[], [], true, false, false, []⟩ with
  | none => none
  | some st =>
    if st.key = [] then none
    else some (⟨st.key⟩, ⟨stripChars st.current_line⟩)

/-- The exceptions the modelled fragment of the script can raise.
`typeErr` models Python's `TypeError`; `duplicated` is the exception the
duplicate-level `raise` statement tries to construct. -/
inductive PyErr where
  | ioErr (path : String)
  | invalidProperty (line : String)
  | typeErr
  | duplicated (msg : String)
deriving DecidableEq

/-- `'#'`/`'!'` test of `parse_property_file`
(`line.startswith('#') or line.startswith('!')`). -/
def isCommentStart (s : String) : Bool :=
  match s.toList.head? with
  | some c => c = '#' || c = '!'
  | none => false

/-- `line.endswith('\\')`. -/
def endsWithBackslash (s : String) : Bool :=
  match s.toList.getLast? with
  | some c => c = '\\'
  | none => false

/-- A Python `dict` insertion on an insertion-ordered association list:
an existing key is updated in place, a new key is appended. -/
def dictInsert (m : List (String × String)) (k v : String) : List (String × String) :=
  if m.any (fun p => p.1 = k) then
    m.map (fun p => if p.1 = k then (k, v) else p)
  else m ++ [(k, v)]

/-- Loop state of `parse_property_file`, one field per Python local. -/
structure ParseState where
  values : List (String × String)
  is_continuing : Bool
  line_buffer : String

/-- One iteration of the `for source_line in handle.readlines()` loop of
`parse_property_file`. -/
def parseStep (st : ParseState) (source_line : String) : Except PyErr ParseState :=
  let line := pstrip source_line
  if line = "" then .ok st
  else if st.is_continuing = false ∧ isCommentStart line then .ok st
  else if endsWithBackslash line then
    .ok { st with is_continuing := true, line_buffer := st.line_buffer ++ " " ++ line }
  else
    let joined := st.line_buffer ++ " " ++ line
    match split_property_line joined with
    | none => .error (.invalidProperty joined)
    | some kv =>
      .ok { values := dictInsert st.values kv.1 kv.2, is_continuing := false,
            line_buffer := "" }

/-- `parse_property_file`, over the file's physical lines.  The final
`line_buffer` is dropped on return, exactly as in the source. -/
def parse_property_file (ls : List String) : Except PyErr (List (String × String)) :=
  (ls.foldlM parseStep ⟨[], false, ""⟩).map (fun st => st.values)

/-- Instrumented twin of the `parse_property_file` loop: identical
control flow, but it records every joined logical line handed to
`split_property_line` (stopping — like the `raise` — after a line that
fails to parse). -/
def deliveredAux (st : ParseState) : List String → List String
  | [] => []
  | source_line :: rest =>
    let line := pstrip source_line
    if line = "" then deliveredAux st rest
    else if st.is_continuing = false ∧ isCommentStart line then deliveredAux st rest
    else if endsWithBackslash line then
      deliveredAux { st with is_continuing := true,
                             line_buffer := st.line_buffer ++ " " ++ line } rest
    else
      let joined := st.line_buffer ++ " " ++ line
      joined ::
        (match split_property_line joined with
         | none => []
         | some kv =>
           deliveredAux { values := dictInsert st.values kv.1 kv.2,
                          is_continuing := false, line_buffer := "" } rest)

/-- The logical lines `parse_property_file` delivers to
`split_property_line` for a given file. -/
def delivered_lines (ls : List String) : List String :=
  deliveredAux ⟨[], false, ""⟩ ls

/-- `s.isdigit()` on a Python string (ASCII inputs). -/
def pyIsDigit (s : String) : Bool := s ≠ "" && s.toList.all Char.isDigit

/-- `int()` on an all-digit string. -/
def strToNat (s : String) : Nat :=
  s.toList.foldl (fun a c => a * 10 + (c.toNat - 48)) 0

/-- Python `str + int`: always raises `TypeError`.  This is the
concatenation attempted by the duplicate-level `raise` in
`collect_android_sources`. -/
def pyStrPlusInt (_s : String) (_n : Nat) : Except PyErr String := .error .typeErr

/-- One iteration of the `for directory in os.listdir(sources)` loop of
`collect_android_sources`.  A directory is given as its name together
with the physical lines of its `source.properties`, or `none` when that
file is missing or unreadable (in which case `open` raises, and nothing
in the source catches it). -/
def collectStep (acc : List (Nat × String)) (dir : String × Option (List String)) :
    Except PyErr (List (Nat × String)) := do
  let lines ← match dir.2 with
    | none => Except.error (.ioErr (dir.1 ++ "/source.properties"))
    | some ls => Except.ok ls
  let properties ← parse_property_file lines
  match properties.lookup "AndroidVersion.ApiLevel" with
  | none => .ok acc
  | some v =>
    if pyIsDigit v = false then .ok acc
    else
      let api_level := strToNat v
      if acc.any (fun p => p.1 = api_level) then do
        let msg ← pyStrPlusInt "Duplicated API level: " api_level
        Except.error (.duplicated msg)
      else .ok (acc ++ [(api_level, dir.1)])

/-- `collect_android_sources`, given the listing of `<root>/sources`
(the existence check on the `sources` directory itself precedes this
loop and is not involved in any claim). -/
def collect_android_sources (dirs : List (String × Option (List String))) :
    Except PyErr (List (Nat × String)) :=
  dirs.foldlM collectStep []

/-! ### The concurrent assembler of `generate_plugins`

Each packaging task reads one immutable source directory, so the archive
a task publishes is a function of its API level alone (`outcome`, with
`none` for a task whose `package_sdk_source` call raised: such a task
publishes nothing into `sdk_archives`, though its `delete=False`
temporary file exists on disk).  Thread scheduling is modelled by the
order `completion : List Nat` in which tasks publish into the shared
`sdk_archives` dict; any worker count from 1 to N+5 yields some
permutation of the submitted levels. -/

/-- `os.path.join(str(sdk), 'sources.zip')`. -/
def sourcesZipPath (lvl : Nat) : String := Nat.repr lvl ++ "/sources.zip"

/-- Python `sorted` on the catalog's keys. -/
def pySorted (l : List Nat) : List Nat := List.insertionSort (· ≤ ·) l

/-- The shared `sdk_archives` dict after all tasks have published, built
by folding the publications in completion order.  A failed task (outcome
`none`) publishes nothing. -/
def sdkArchivesMap {α : Type} (outcome : Nat → Option α) (completion : List Nat) :
    Nat → Option α :=
  completion.foldl
    (fun m lvl =>
      match outcome lvl with
      | some v => fun k => if k = lvl then some v else m k
      | none => m)
    (fun _ => none)

/-- What the post-barrier `for sdk in sorted(sdks)` loop has done by the
time it returns or dies: the per-level members written into the final
archive, the temporary files unlinked, and the level whose
`sdk_archives[sdk]` lookup raised `KeyError` (if any). -/
structure AssembleResult (α : Type) where
  members : List (String × α)
  deleted : List Nat
  errorAt : Option Nat
deriving DecidableEq

/-- The post-barrier loop of `generate_plugins`: for each level in
sorted order, look up `sdk_archives[sdk]` (a missing key raises
`KeyError`, aborting the loop), write the member, then unlink the
temporary file. -/
def assembleLoop {α : Type} (archives : Nat → Option α) : List Nat → AssembleResult α
  | [] => ⟨[], [], none⟩
  | lvl :: rest =>
    match archives lvl with
    | none => ⟨[], [], some lvl⟩
    | some v =>
      let r := assembleLoop archives rest
      ⟨(sourcesZipPath lvl, v) :: r.members, lvl :: r.deleted, r.errorAt⟩

/-- The per-level portion of `generate_plugins`: tasks publish in
`completion` order, the barrier waits, then the sorted loop assembles. -/
def generate_plugins {α : Type} (outcome : Nat → Option α)
    (sdks completion : List Nat) : AssembleResult α :=
  assembleLoop (sdkArchivesMap outcome completion) (pySorted sdks)

/-! ### `package_sdk_source` and `repack` -/

/-- A directory tree: the filesystem input of `os.walk`. -/
inductive FsTree where
  | file (name : String)
  | dir (name : String) (children : List FsTree)

/-- The `directories` component of an `os.walk` triple. -/
def dirNames (ts : List FsTree) : List String :=
  ts.filterMap fun t =>
    match t with
    | .dir n _ => some n
    | .file _ => none

/-- The `files` component of an `os.walk` triple. -/
def fileNames (ts : List FsTree) : List String :=
  ts.filterMap fun t =>
    match t with
    | .file n => some n
    | .dir _ _ => none

/-- One `os.walk` triple: the visited directory's path relative to the
walk root, its subdirectory names and its file names. -/
structure WalkFrame where
  root : List String
  dirs : List String
  files : List String

mutual

/-- `os.walk` frames contributed by one entry of a directory listing. -/
def walkTree (p : List String) (t : FsTree) : List WalkFrame :=
  match t with
  | .file _ => []
  | .dir n cs => ⟨p ++ [n], dirNames cs, fileNames cs⟩ :: walkForest (p ++ [n]) cs

/-- `os.walk` frames contributed by a directory listing, in order. -/
def walkForest (p : List String) (ts : List FsTree) : List WalkFrame :=
  match ts with
  | [] => []
  | t :: ts => walkTree p t ++ walkForest p ts

end

/-- `os.walk(directory)`: the root's own frame, then the frames of its
subtrees, top-down. -/
def walk (ts : List FsTree) : List WalkFrame := ⟨[], dirNames ts, fileNames ts⟩ :: walkForest [] ts

/-- `os.path.relpath` output for a path below the walk root. -/
def joinPath (p : List String) : String := String.intercalate "/" p

/-- An archive member.  `zipfile.ZipFile.write` on a regular file always
creates a file entry, so `isDir` records whether the member was written
as a directory entry. -/
structure ZipEntry where
  path : String
  isDir : Bool
deriving DecidableEq

/-- The `for root, directories, files in os.walk(...)` body shared by
`package_sdk_source` and `repack`: the loop over `directories` only
computes `os.path.relpath` and discards it (writing nothing), and every
file whose relative path differs from the exclusion is written under its
relative path.  `excl = some "source.properties"` is the hard-coded
`target_file == 'source.properties'` filter of `package_sdk_source`;
`excl = none` is `repack`'s unfiltered loop. -/
def frameEntries (excl : Option String) (fr : WalkFrame) : List ZipEntry :=
  fr.files.filterMap fun n =>
    let rel := joinPath (fr.root ++ [n])
    if some rel = excl then none else some ⟨rel, false⟩

/-- The members written by the whole `for root, directories, files in
os.walk(...)` loop. -/
def packFrames (excl : Option String) (frames : List WalkFrame) : List ZipEntry :=
  frames.flatMap (frameEntries excl)

/-- `package_sdk_source(directory, target_file)`: the members written. -/
def package_sdk_source (ts : List FsTree) : List ZipEntry :=
  packFrames (some "source.properties") (walk ts)

/-- `repack(directory, target_file)`: the members written. -/
def repack (ts : List FsTree) : List ZipEntry :=
  packFrames none (walk ts)

/-- Modelled from the spec: the ArchivePacker contract
`pack(sourceDir, destinationArchivePath, excludeRelativePath?, ...)`
with its caller-chosen `excludeRelativePath`; the source hard-codes the
two instances `some "source.properties"` and `none`. -/
def pack (ts : List FsTree) (excl : Option String) : List ZipEntry :=
  packFrames excl (walk ts)

/-- The archive member paths, in member order. -/
def entryPaths (es : List ZipEntry) : List String := es.map (fun e => e.path)

mutual

/-- The relative paths of the regular files of one tree entry
(reference recursion, independent of `os.walk`'s frame order). -/
def relFilesT (p : List String) (t : FsTree) : List String :=
  match t with
  | .file n => [joinPath (p ++ [n])]
  | .dir n cs => relFilesF (p ++ [n]) cs

/-- The relative paths of the regular files below a directory listing. -/
def relFilesF (p : List String) (ts : List FsTree) : List String :=
  match ts with
  | [] => []
  | t :: ts => relFilesT p t ++ relFilesF p ts

end

/-- The relative paths of all regular files of the packed tree. -/
def relFiles (ts : List FsTree) : List String := relFilesF [] ts

/-! ### The template loop of `preprocess` -/

/-- Leftmost occurrence of `'%%'`: Python's `line.index('%%')`. -/
def idxPP : List Char → Option Nat
  | '%' :: '%' :: _ => some 0
  | _ :: rest => (idxPP rest).map (fun i => i + 1)
  | [] => none

/-- Result of one test-and-body pass of the `while '%%' in line` loop of
`preprocess`. -/
inductive LineStep where
  | done (out : List Char)
  | valueError
  | next (l : List Char)
deriving DecidableEq

/-- One pass of the `while '%%' in line` loop: exit when `'%%'` is
absent; `line.index('%%', start_marker + 2)` raises `ValueError` when no
closing marker exists; a resolvable marker is spliced out and replaced
by the stringified value; an unresolved marker leaves `line` unchanged
and the loop retests the same condition. -/
def lineStep (vars : List (String × String)) (l : List Char) : LineStep :=
  match idxPP l with
  | none => .done l
  | some i =>
    match idxPP (l.drop (i + 2)) with
    | none => .valueError
    | some j0 =>
      let j := i + 2 + j0
      let varName : String := ⟨(l.drop (i + 2)).take j0⟩
      match vars.lookup varName with
      | some v => .next (l.take i ++ v.toList ++ l.drop (j + 2))
      | none => .next l

/-- The `while` loop of `preprocess` on one line, with explicit fuel:
`none` means the loop is still running after `fuel` passes, `some (.error ())`
models the uncaught `ValueError`, `some (.ok out)` the loop exiting with
the processed line. -/
def preprocess_line (vars : List (String × String)) :
    Nat → List Char → Option (Except Unit (List Char))
  | 0, _ => none
  | fuel + 1, l =>
    match lineStep vars l with
    | .done out => some (.ok out)
    | .valueError => some (.error ())
    | .next l2 => preprocess_line vars fuel l2

/-- The substitution loop on `l` never finishes, for any amount of fuel. -/
def PreprocessDiverges (vars : List (String × String)) (l : List Char) : Prop :=
  ∀ fuel, preprocess_line vars fuel l = none

/-- The substitution loop on `l` reaches an exit in finitely many
passes. -/
inductive Halts (vars : List (String × String)) : List Char → Prop where
  | done (l out : List Char) : lineStep vars l = .done out → Halts vars l
  | err (l : List Char) : lineStep vars l = .valueError → Halts vars l
  | step (l l2 : List Char) : lineStep vars l = .next l2 → Halts vars l2 → Halts vars l

/-! ### Claim theorems -/

/-- C4: the claim says a second unescaped separator after the key is
established makes the parse fail.  In the code `in_key` is initialized to
`True` and never cleared, so the guard `if not in_key: return None` is
unreachable: a second separator silently restarts the key instead, and
`parseLine("k=v=w")` returns `("v", "w")` rather than failing. -/
theorem second_separator_reparses :
    split_property_line "k=v=w" = some ("v", "w") := by decide

/-- C6: two subdirectories both reporting API level 21.  The duplicate is
detected immediately, but the `raise Exception('Duplicated API level: '
+ api_level)` statement concatenates a `str` with an `int`, so the run
aborts with a `TypeError` that does not name the level, not with the
intended duplicate error.  The second conjunct checks the claim's other
half: one directory with level 21 and one without the key yields exactly
one entry. -/
theorem duplicate_level_type_error :
    collect_android_sources
        [("a", some ["AndroidVersion.ApiLevel=21"]),
         ("b", some ["AndroidVersion.ApiLevel=21"])] = .error .typeErr ∧
    collect_android_sources
        [("a", some ["AndroidVersion.ApiLevel=21"]),
         ("b", some ["Other=1"])] = .ok [(21, "a")] := by
  exact ⟨by decide, by decide⟩

/-- C3 counterexample: the claim predicts `parseLine("k=A") =
("k", "65")`, but the scanner only flushes the decimal conversion when a
character after the four digits is read, so at end of line the pending
escape is dropped and the value is empty. -/
theorem unicode_escape_eol_counterexample :
    split_property_line "k=\\u0041" = some ("k", "") ∧
    split_property_line "k=\\u0041" ≠ some ("k", "65") := by decide

/-- C5 counterexample: a subdirectory whose `source.properties` is
missing is not silently excluded; the `open` failure propagates and
kills the whole run, so the catalog claimed by the spec (one entry for
level 21) is never produced. -/
theorem missing_properties_fatal_counterexample :
    collect_android_sources [("a", none), ("b", some ["AndroidVersion.ApiLevel=21"])]
      = .error (.ioErr "a/source.properties") ∧
    collect_android_sources [("a", none), ("b", some ["AndroidVersion.ApiLevel=21"])]
      ≠ .ok [(21, "b")] := by decide

/-- C7 counterexample: the claim says the continuation marker is not part
of the parsed content and the lines are joined with a single inserted
space.  The buffered first line keeps its trailing backslash (and the
buffer itself starts with an inserted space), so the delivered logical
line is ` key=va\ lue` and the backslash survives into the parsed value,
which is `va\ lue`, not `va lue`. -/
theorem continuation_marker_counterexample :
    delivered_lines ["key=va\\", "lue"] = [" key=va\\ lue"] ∧
    parse_property_file ["key=va\\", "lue"] = .ok [("key", "va\\ lue")] ∧
    ("va\\ lue" : String) ≠ "va lue" := by decide

/-- Task outcomes for the C2 counterexample: the task for level 1 fails,
the task for level 2 succeeds. -/
def c2Outcome : Nat → Option Nat := fun l => if l = 2 then some 7 else none

/-- C2 counterexample: with tasks for levels 1 and 2 and the level-1 task
failing, assembly dies at the `sdk_archives[1]` lookup (`KeyError`), no
aggregated error is produced, and the successful level-2 task's
temporary file is never deleted — refuting the claim that the other
tasks' temporary artifacts are cleaned up. -/
theorem assemble_failure_counterexample :
    generate_plugins c2Outcome [1, 2] [1, 2] = ⟨[], [], some 1⟩ ∧
    2 ∉ (generate_plugins c2Outcome [1, 2] [1, 2]).deleted ∧
    (generate_plugins c2Outcome [1, 2] [1, 2]).errorAt ≠ none := by decide

/-- C8 counterexample: on the line `%%FOO%%` with `FOO` unresolved, one
loop pass returns the line unchanged, so the `while '%%' in line` loop
never terminates — the marker is not left verbatim in a returned result. -/
theorem unresolved_marker_divergence :
    lineStep [] "%%FOO%%".toList = .next "%%FOO%%".toList ∧
    PreprocessDiverges [] "%%FOO%%".toList := by
  have hstep : lineStep [] "%%FOO%%".toList = .next "%%FOO%%".toList := by decide
  refine ⟨hstep, ?_⟩
  intro fuel
  induction fuel with
  | zero => rfl
  | succ n ih => rw [preprocess_line, hstep]; exact ih

/-- C10: a final physical line ending in a trailing backslash only adds
to `line_buffer` and sets `is_continuing`; the function then returns the
accumulated `values`, silently discarding the buffered logical line.
Appending such a line to any file leaves the parse result unchanged, so
the pending key/value pair never appears and no error is raised. -/
theorem trailing_continuation_discarded (ls : List String) (l : String)
    (h1 : pstrip l ≠ "") (h2 : endsWithBackslash (pstrip l) = true) :
    parse_property_file (ls ++ [l]) = parse_property_file ls := by
  unfold parse_property_file
  rw [List.foldlM_append]
  rcases hf : List.foldlM parseStep (⟨[], false, ""⟩ : ParseState) ls with e | st
  · rfl
  · show (Except.ok st >>= fun s => List.foldlM parseStep s [l]).map _
      = (Except.ok st).map _
    simp only [List.foldlM_cons, List.foldlM_nil]
    have hstep : (parseStep st l).map (fun s => s.values) = Except.ok st.values := by
      unfold parseStep
      by_cases hc : st.is_continuing = false ∧ isCommentStart (pstrip l) = true
      · simp [h1, hc]
        rfl
      · simp [h1, hc, h2]
        rfl
    rcases hps : parseStep st l with e2 | st2
    · rw [hps] at hstep
      exact absurd hstep (by simp [Except.map])
    · rw [hps] at hstep
      simp only [Except.map, Except.ok.injEq] at hstep
      simp [Bind.bind, Except.bind, Except.map, Pure.pure, Except.pure, hps, hstep]

/-- C10 witness: `b=2\` as the final line of a two-line file is dropped;
the mapping only contains the first line's pair. -/
theorem trailing_continuation_discarded_witness :
    pstrip "b=2\\" ≠ "" ∧ endsWithBackslash (pstrip "b=2\\") = true ∧
    parse_property_file ["a=1", "b=2\\"] = parse_property_file ["a=1"] :=
  ⟨by decide, by decide,
    trailing_continuation_discarded ["a=1"] "b=2\\" (by decide) (by decide)⟩

/-- A state in unicode-escape mode with fewer than four digits buffered
consumes one more uppercase hexadecimal digit. -/
theorem hex_digit_step (key cur : List Char) (ik : Bool) (hs : List Char) (d : Char)
    (hd : isUpperHex d = true) (hlen : hs.length ≠ 4) (rest : List Char) :
    List.foldlM splitStep (⟨key, cur, ik, false, true, hs⟩ : SplitState) (d :: rest)
      = List.foldlM splitStep (⟨key, cur, ik, false, true, hs ++ [d]⟩ : SplitState) rest := by
  simp [List.foldlM_cons, splitStep, hd, hlen]

/-- Stripping changes nothing when the list begins and ends with
non-whitespace characters. -/
theorem stripChars_of_ends (a b : Char) (l : List Char)
    (ha : isPyWs a = false) (hb : isPyWs b = false) :
    stripChars (a :: (l ++ [b])) = a :: (l ++ [b]) := by
  simp [stripChars, ha, hb]

/-- Unfolding `split_property_line` through a computed scanner run. -/
theorem split_property_line_of_foldlM (l : List Char) (st : SplitState)
    (h : List.foldlM splitStep (⟨[], [], true, false, false, []⟩ : SplitState) l = some st)
    (hk : ¬st.key = []) :
    split_property_line ⟨l⟩ = some (⟨st.key⟩, ⟨stripChars st.current_line⟩) := by
  unfold split_property_line
  rw [show String.toList ⟨l⟩ = l from rfl, h]
  simp [hk]

/-- C3 (amended): a `\u` escape with four uppercase hexadecimal digits is
consumed, and its decimal-string conversion (never the character itself)
is emitted only when one more character is read after the digits; an
escape whose digits end the line is silently dropped.  For all uppercase
hexadecimal digits `d1..d4`, `parseLine` on `k=\u<d1d2d3d4>` yields
value `""`, while on `k=y\u<d1d2d3d4>x` it yields `y` ++ the decimal
string of the escape's value ++ `x`. -/
theorem unicode_escape_decimal_amended (d1 d2 d3 d4 : Char)
    (h1 : isUpperHex d1 = true) (h2 : isUpperHex d2 = true)
    (h3 : isUpperHex d3 = true) (h4 : isUpperHex d4 = true) :
    split_property_line ⟨['k', '=', '\\', 'u', d1, d2, d3, d4]⟩ = some ("k", "") ∧
    split_property_line ⟨['k', '=', 'y', '\\', 'u', d1, d2, d3, d4, 'x']⟩
      = some ("k", ⟨'y' :: ((Nat.repr (hexVal [d1, d2, d3, d4])).toList ++ ['x'])⟩) := by
  constructor
  · have efold : List.foldlM splitStep (⟨[], [], true, false, false, []⟩ : SplitState)
        ['k', '=', '\\', 'u', d1, d2, d3, d4]
        = some ⟨['k'], [], true, false, true, [d1, d2, d3, d4]⟩ := by
      calc List.foldlM splitStep (⟨[], [], true, false, false, []⟩ : SplitState)
              ['k', '=', '\\', 'u', d1, d2, d3, d4]
          = List.foldlM splitStep (⟨['k'], [], true, false, true, []⟩ : SplitState)
              [d1, d2, d3, d4] := rfl
        _ = List.foldlM splitStep (⟨['k'], [], true, false, true, [d1]⟩ : SplitState)
              [d2, d3, d4] := hex_digit_step ['k'] [] true [] d1 h1 (by simp) _
        _ = List.foldlM splitStep (⟨['k'], [], true, false, true, [d1, d2]⟩ : SplitState)
              [d3, d4] := hex_digit_step ['k'] [] true [d1] d2 h2 (by simp) _
        _ = List.foldlM splitStep (⟨['k'], [], true, false, true, [d1, d2, d3]⟩ : SplitState)
              [d4] := hex_digit_step ['k'] [] true [d1, d2] d3 h3 (by simp) _
        _ = List.foldlM splitStep
              (⟨['k'], [], true, false, true, [d1, d2, d3, d4]⟩ : SplitState)
              [] := hex_digit_step ['k'] [] true [d1, d2, d3] d4 h4 (by simp) _
        _ = some ⟨['k'], [], true, false, true, [d1, d2, d3, d4]⟩ := rfl
    exact split_property_line_of_foldlM _ _ efold (by simp)
  · have efold : List.foldlM splitStep (⟨[], [], true, false, false, []⟩ : SplitState)
        ['k', '=', 'y', '\\', 'u', d1, d2, d3, d4, 'x']
        = some ⟨['k'], 'y' :: ((Nat.repr (hexVal [d1, d2, d3, d4])).toList ++ ['x']),
                true, false, false, []⟩ := by
      calc List.foldlM splitStep (⟨[], [], true, false, false, []⟩ : SplitState)
              ['k', '=', 'y', '\\', 'u', d1, d2, d3, d4, 'x']
          = List.foldlM splitStep (⟨['k'], ['y'], true, false, true, []⟩ : SplitState)
              [d1, d2, d3, d4, 'x'] := rfl
        _ = List.foldlM splitStep (⟨['k'], ['y'], true, false, true, [d1]⟩ : SplitState)
              [d2, d3, d4, 'x'] := hex_digit_step ['k'] ['y'] true [] d1 h1 (by simp) _
        _ = List.foldlM splitStep (⟨['k'], ['y'], true, false, true, [d1, d2]⟩ : SplitState)
              [d3, d4, 'x'] := hex_digit_step ['k'] ['y'] true [d1] d2 h2 (by simp) _
        _ = List.foldlM splitStep
              (⟨['k'], ['y'], true, false, true, [d1, d2, d3]⟩ : SplitState)
              [d4, 'x'] := hex_digit_step ['k'] ['y'] true [d1, d2] d3 h3 (by simp) _
        _ = List.foldlM splitStep
              (⟨['k'], ['y'], true, false, true, [d1, d2, d3, d4]⟩ : SplitState)
              ['x'] := hex_digit_step ['k'] ['y'] true [d1, d2, d3] d4 h4 (by simp) _
        _ = some ⟨['k'], 'y' :: ((Nat.repr (hexVal [d1, d2, d3, d4])).toList ++ ['x']),
                true, false, false, []⟩ := rfl
    have hres := split_property_line_of_foldlM _ _ efold (by simp)
    rw [stripChars_of_ends 'y' 'x' _ (by decide) (by decide)] at hres
    exact hres

/-- C3 (amended) witness: at the digits `0041` the escape followed by `x`
becomes the decimal string `65`, and the escape at end of line is
dropped. -/
theorem unicode_escape_decimal_amended_witness :
    isUpperHex '0' = true ∧ isUpperHex '4' = true ∧ isUpperHex '1' = true ∧
    split_property_line "k=\\u0041" = some ("k", "") ∧
    split_property_line "k=y\\u0041x" = some ("k", "y65x") := by
  have h := unicode_escape_decimal_amended '0' '0' '4' '1'
    (by decide) (by decide) (by decide) (by decide)
  exact ⟨by decide, by decide, by decide, h.1, h.2⟩

/-- C7 (amended): a physical line ending with a trailing backslash makes
the next line a continuation and comment-skipping does not apply to it
(no hypothesis restricts `l2`'s first character), but the delivered
logical line is not the plain single-space join: the buffered first line
keeps its trailing backslash and is itself preceded by an inserted
space, so `split_property_line` receives
`" " ++ strip(l1) ++ " " ++ strip(l2)` with the backslash still in it
(where it then escapes the inserted space and survives as a literal
backslash in the parsed value). -/
theorem continuation_join_amended (l1 l2 : String)
    (h1 : ¬pstrip l1 = "") (h2 : isCommentStart (pstrip l1) = false)
    (h3 : endsWithBackslash (pstrip l1) = true)
    (h4 : ¬pstrip l2 = "") (h5 : endsWithBackslash (pstrip l2) = false) :
    delivered_lines [l1, l2] = [" " ++ pstrip l1 ++ " " ++ pstrip l2] := by
  unfold delivered_lines deliveredAux
  simp only [h1, h2, h3, h4, h5, ite_false, ite_true, if_neg, if_pos, if_false, if_true,
    Bool.false_eq_true, and_false, not_false_eq_true, Bool.true_eq_false]
  unfold deliveredAux
  simp only [h4, h5, ite_false, if_neg, if_false, Bool.true_eq_false, false_and, and_false,
    Bool.false_eq_true]
  cases hsp : split_property_line (" " ++ pstrip l1 ++ " " ++ pstrip l2) <;>
    simp [hsp, deliveredAux]

/-- C7 (amended) witness: `key=va\` followed by `#lue`.  The second line
starts with a comment character and is still consumed as a continuation,
and the delivered line keeps the backslash: ` key=va\ #lue`. -/
theorem continuation_join_amended_witness :
    ¬pstrip "key=va\\" = "" ∧ isCommentStart (pstrip "key=va\\") = false ∧
    endsWithBackslash (pstrip "key=va\\") = true ∧
    ¬pstrip "#lue" = "" ∧ endsWithBackslash (pstrip "#lue") = false ∧
    delivered_lines ["key=va\\", "#lue"] = [" key=va\\ #lue"] := by
  have h := continuation_join_amended "key=va\\" "#lue"
    (by decide) (by decide) (by decide) (by decide) (by decide)
  exact ⟨by decide, by decide, by decide, by decide, by decide, h.trans (by decide)⟩

/-- C5 (amended): a subdirectory whose `source.properties` is missing or
unreadable makes the whole run fail with the propagated file error —
nothing catches it; a subdirectory is silently excluded (the run
continues as if the directory were absent) only when the file parses and
the `AndroidVersion.ApiLevel` key is missing or non-numeric. -/
theorem missing_properties_fatal_amended
    (pre rest : List (String × Option (List String))) (name : String)
    (acc : List (Nat × String))
    (hpre : pre.foldlM collectStep ([] : List (Nat × String)) = .ok acc)
    (ls : List String) (props : List (String × String))
    (hparse : parse_property_file ls = .ok props)
    (hkey : ((props.lookup "AndroidVersion.ApiLevel").map pyIsDigit).getD false = false) :
    collect_android_sources (pre ++ (name, (none : Option (List String))) :: rest)
      = .error (.ioErr (name ++ "/source.properties")) ∧
    collect_android_sources (pre ++ (name, some ls) :: rest)
      = collect_android_sources (pre ++ rest) := by
  have hstep_none : collectStep acc (name, (none : Option (List String)))
      = .error (.ioErr (name ++ "/source.properties")) := rfl
  have hstep_some : collectStep acc (name, some ls) = .ok acc := by
    cases hl : props.lookup "AndroidVersion.ApiLevel" with
    | none => simp [collectStep, Bind.bind, Except.bind, hparse, hl]
    | some v =>
        have hv : pyIsDigit v = false := by simpa [hl] using hkey
        simp [collectStep, Bind.bind, Except.bind, hparse, hl, hv]
  constructor
  · unfold collect_android_sources
    rw [List.foldlM_append, hpre]
    simp only [List.foldlM_cons, Bind.bind, Except.bind, hstep_none]
  · unfold collect_android_sources
    rw [List.foldlM_append, hpre, List.foldlM_append, hpre]
    simp only [List.foldlM_cons, Bind.bind, Except.bind, hstep_some]

/-- C5 (amended) witness: directory `a` with a missing file kills the
run; directory `a` with a file lacking the key is skipped while `z` and
`b` are kept. -/
theorem missing_properties_fatal_amended_witness :
    ([("z", some ["AndroidVersion.ApiLevel=3"])] :
        List (String × Option (List String))).foldlM collectStep [] = .ok [(3, "z")] ∧
    parse_property_file ["Other=1"] = .ok [("Other", "1")] ∧
    collect_android_sources
        [("z", some ["AndroidVersion.ApiLevel=3"]), ("a", none),
         ("b", some ["AndroidVersion.ApiLevel=4"])]
      = .error (.ioErr "a/source.properties") ∧
    collect_android_sources
        [("z", some ["AndroidVersion.ApiLevel=3"]), ("a", some ["Other=1"]),
         ("b", some ["AndroidVersion.ApiLevel=4"])]
      = collect_android_sources
          [("z", some ["AndroidVersion.ApiLevel=3"]),
           ("b", some ["AndroidVersion.ApiLevel=4"])] := by
  have h := missing_properties_fatal_amended
    [("z", some ["AndroidVersion.ApiLevel=3"])]
    [("b", some ["AndroidVersion.ApiLevel=4"])]
    "a" [(3, "z")] (by decide) ["Other=1"] [("Other", "1")] (by decide) (by decide)
  exact ⟨by decide, by decide, h.1, h.2⟩

/-- Inversion for the loop exit: the pass exits exactly when the line
contains no `'%%'`, and the exit value is the line itself. -/
theorem lineStep_done_inv (vars : List (String × String)) (l out : List Char)
    (h : lineStep vars l = .done out) : out = l ∧ idxPP l = none := by
  unfold lineStep at h
  cases hi : idxPP l with
  | none =>
      rw [hi] at h
      have h2 : LineStep.done l = LineStep.done out := h
      injection h2 with h3
      exact ⟨h3.symm, rfl⟩
  | some i =>
      rw [hi] at h
      exfalso
      cases hj : idxPP (l.drop (i + 2)) with
      | none => simp [hj] at h
      | some j0 =>
          cases hv : vars.lookup (⟨(l.drop (i + 2)).take j0⟩ : String) with
          | none => simp [hj, hv] at h
          | some v => simp [hj, hv] at h

/-- C8 (amended): the per-line substitution loop replaces the leftmost
`%%NAME%%` marker whose NAME is in the map by the stringified value and
repeats; whenever the loop reaches an exit, the returned line contains
no `'%%'` at all (every marker got substituted) or a lone `'%%'` raised
the lookup error.  A pass that leaves the line unchanged — which is what
happens when the leftmost marker's NAME is not in the map — makes the
loop run forever instead of leaving the marker verbatim. -/
theorem preprocess_markers_amended (vars : List (String × String)) (l : List Char) :
    (Halts vars l → ∃ fuel r, preprocess_line vars fuel l = some r ∧
        ∀ out, r = .ok out → idxPP out = none) ∧
    (lineStep vars l = .next l → PreprocessDiverges vars l) := by
  constructor
  · intro h
    induction h with
    | done l2 out hstep =>
        refine ⟨1, .ok out, by simp [preprocess_line, hstep], ?_⟩
        intro o ho
        injection ho with ho2
        obtain ⟨hol, hnone⟩ := lineStep_done_inv vars l2 out hstep
        rw [← ho2, hol]
        exact hnone
    | err l2 hstep =>
        refine ⟨1, .error (), by simp [preprocess_line, hstep], ?_⟩
        intro o ho
        cases ho
    | step l2 l3 hstep hh ih =>
        obtain ⟨fuel, r, hrun, hprop⟩ := ih
        exact ⟨fuel + 1, r, by rw [preprocess_line, hstep]; exact hrun, hprop⟩
  · intro h fuel
    induction fuel with
    | zero => rfl
    | succ n ih => rw [preprocess_line, h]; exact ih

/-- C8 (amended) witness: with `X` mapped to `1`, the line `a%%X%%b`
halts (one substitution, then exit) and the run produces an output with
no remaining marker; with `Z` unmapped, the loop on `%%Z%%` never
finishes for any fuel. -/
theorem preprocess_markers_amended_witness :
    (∃ fuel r, preprocess_line [("X", "1")] fuel "a%%X%%b".toList = some r ∧
        ∀ out, r = .ok out → idxPP out = none) ∧
    PreprocessDiverges [("X", "1")] "%%Z%%".toList := by
  constructor
  · exact (preprocess_markers_amended [("X", "1")] "a%%X%%b".toList).1
      (Halts.step _ "a1b".toList (by decide)
        (Halts.done _ "a1b".toList (by decide)))
  · exact (preprocess_markers_amended [("X", "1")] "%%Z%%".toList).2 (by decide)

/-- The shared result map after folding the publications, for any
initial map: a key published at least once holds its task's outcome. -/
theorem sdkArchivesMap_foldl {α : Type} (outcome : Nat → Option α) :
    ∀ (c : List Nat) (m0 : Nat → Option α) (k : Nat),
      c.foldl (fun m lvl =>
        match outcome lvl with
        | some v => fun k2 => if k2 = lvl then some v else m k2
        | none => m) m0 k
      = if k ∈ c ∧ (outcome k).isSome = true then outcome k else m0 k := by
  intro c
  induction c with
  | nil => intro m0 k; simp
  | cons a rest ih =>
      intro m0 k
      rw [List.foldl_cons, ih]
      by_cases hka : k = a
      · subst hka
        cases ho : outcome k with
        | none => simp [ho]
        | some v => simp [ho]
      · cases ho : outcome a with
        | none => simp [List.mem_cons, hka]
        | some v => simp [List.mem_cons, hka, ho]

/-- A level that was submitted ends up in `sdk_archives` exactly with
its task's outcome, whatever the completion order. -/
theorem sdkArchivesMap_of_mem {α : Type} (outcome : Nat → Option α)
    (c : List Nat) (k : Nat) (hk : k ∈ c) :
    sdkArchivesMap outcome c k = outcome k := by
  unfold sdkArchivesMap
  rw [sdkArchivesMap_foldl]
  cases ho : outcome k with
  | none => simp [hk, ho]
  | some v => simp [hk, ho]

/-- When every level's archive is present, the post-barrier loop writes
one member per level, in the order of the level list, and deletes every
temporary file. -/
theorem assembleLoop_success {α : Type} (archives : Nat → Option α) (f : Nat → α) :
    ∀ (s : List Nat), (∀ l ∈ s, archives l = some (f l)) →
      assembleLoop archives s = ⟨s.map (fun l => (sourcesZipPath l, f l)), s, none⟩ := by
  intro s
  induction s with
  | nil => intro h; rfl
  | cons a rest ih =>
      intro h
      have ha := h a (List.mem_cons_self a rest)
      simp [assembleLoop, ha, ih (fun l hl => h l (List.mem_cons_of_mem a hl))]

/-- C1: for a catalog with per-level archive contents `pk`, the
per-level members of the final archive are written in ascending sorted
numeric API-level order under `<apiLevel>/sources.zip`, and the member
list is a pure function of the set of levels: any two runs whose task
completion orders are permutations of (any enumeration of) the catalog —
which covers every worker count, 1, 2 or N+5 — produce identical member
lists, with no error. -/
theorem generate_plugins_order_deterministic {α : Type} (pk : Nat → α)
    (sdks sdks2 c1 c2 : List Nat)
    (hs : sdks.Perm sdks2) (hc1 : c1.Perm sdks) (hc2 : c2.Perm sdks2) :
    generate_plugins (fun l => some (pk l)) sdks c1
      = generate_plugins (fun l => some (pk l)) sdks2 c2 ∧
    (generate_plugins (fun l => some (pk l)) sdks c1).members.map Prod.fst
      = (pySorted sdks).map sourcesZipPath ∧
    List.Sorted (· ≤ ·) (pySorted sdks) ∧
    (generate_plugins (fun l => some (pk l)) sdks c1).errorAt = none := by
  have hsorted1 : List.Sorted (· ≤ ·) (pySorted sdks) := List.sorted_insertionSort _ _
  have hsorted2 : List.Sorted (· ≤ ·) (pySorted sdks2) := List.sorted_insertionSort _ _
  have hperm : (pySorted sdks).Perm (pySorted sdks2) :=
    ((List.perm_insertionSort _ sdks).trans hs).trans (List.perm_insertionSort _ sdks2).symm
  have heq : pySorted sdks = pySorted sdks2 :=
    List.eq_of_perm_of_sorted hperm hsorted1 hsorted2
  have run1 : generate_plugins (fun l => some (pk l)) sdks c1
      = ⟨(pySorted sdks).map (fun l => (sourcesZipPath l, pk l)), pySorted sdks, none⟩ := by
    unfold generate_plugins
    refine assembleLoop_success _ pk _ ?_
    intro l hl
    have hlc : l ∈ c1 :=
      hc1.mem_iff.mpr ((List.perm_insertionSort _ sdks).mem_iff.mp hl)
    rw [sdkArchivesMap_of_mem _ _ _ hlc]
  have run2 : generate_plugins (fun l => some (pk l)) sdks2 c2
      = ⟨(pySorted sdks2).map (fun l => (sourcesZipPath l, pk l)), pySorted sdks2, none⟩ := by
    unfold generate_plugins
    refine assembleLoop_success _ pk _ ?_
    intro l hl
    have hlc : l ∈ c2 :=
      hc2.mem_iff.mpr ((List.perm_insertionSort _ sdks2).mem_iff.mp hl)
    rw [sdkArchivesMap_of_mem _ _ _ hlc]
  refine ⟨?_, ?_, hsorted1, ?_⟩
  · rw [run1, run2, heq]
  · rw [run1]
    simp [List.map_map, Function.comp]
  · rw [run1]

/-- C1 witness: catalog levels {1, 2}, enumerated in both orders, with
completion orders modelling different worker counts. -/
theorem generate_plugins_order_deterministic_witness :
    ([2, 1] : List Nat).Perm [1, 2] ∧ ([1, 2] : List Nat).Perm [2, 1] ∧
    ([2, 1] : List Nat).Perm [1, 2] ∧
    generate_plugins (fun l => some l) [2, 1] [1, 2]
      = generate_plugins (fun l => some l) [1, 2] [2, 1] ∧
    (generate_plugins (fun l => some l) [2, 1] [1, 2]).members.map Prod.fst
      = (pySorted [2, 1]).map sourcesZipPath ∧
    List.Sorted (· ≤ ·) (pySorted [2, 1]) ∧
    (generate_plugins (fun l => some l) [2, 1] [1, 2]).errorAt = none := by
  have h := generate_plugins_order_deterministic (fun l => l) [2, 1] [1, 2] [1, 2] [2, 1]
    (by decide) (by decide) (by decide)
  exact ⟨by decide, by decide, by decide, h.1, h.2.1, h.2.2.1, h.2.2.2⟩

/-- The head of a `dropWhile` residue falsifies the predicate. -/
theorem dropWhile_head_not {α : Type} (p : α → Bool) :
    ∀ (s : List α) (m : α) (t : List α), s.dropWhile p = m :: t → p m = false := by
  intro s
  induction s with
  | nil => intro m t h; cases h
  | cons a rest ih =>
      intro m t h
      by_cases hpa : p a = true
      · rw [List.dropWhile_cons_of_pos hpa] at h
        exact ih m t h
      · rw [List.dropWhile_cons_of_neg hpa] at h
        cases h
        simpa using hpa

/-- Elements of a `takeWhile` result satisfy the predicate. -/
theorem mem_takeWhile_pred {α : Type} (p : α → Bool) :
    ∀ (s : List α) (x : α), x ∈ s.takeWhile p → p x = true := by
  intro s
  induction s with
  | nil => intro x h; cases h
  | cons a rest ih =>
      intro x h
      rw [List.takeWhile_cons] at h
      by_cases hpa : p a = true
      · rw [if_pos hpa] at h
        rcases List.mem_cons.mp h with rfl | h2
        · exact hpa
        · exact ih x h2
      · rw [if_neg hpa] at h
        cases h

/-- `takeWhile` only looks at the predicate on the list's elements. -/
theorem takeWhile_congr_mem {α : Type} (p q : α → Bool) :
    ∀ (s : List α), (∀ x ∈ s, p x = q x) → s.takeWhile p = s.takeWhile q := by
  intro s
  induction s with
  | nil => intro h; rfl
  | cons a rest ih =>
      intro h
      have ha := h a (List.mem_cons_self a rest)
      rw [List.takeWhile_cons, List.takeWhile_cons, ha]
      cases hq : q a <;>
        simp [ih (fun x hx => h x (List.mem_cons_of_mem a hx))]

/-- Projecting the written member paths out of the successful prefix. -/
theorem map_fst_filterMap_archives {α : Type} (archives : Nat → Option α) :
    ∀ (p : List Nat), (∀ l ∈ p, (archives l).isSome = true) →
      (p.filterMap (fun l => (archives l).map (fun v => (sourcesZipPath l, v)))).map
          Prod.fst
        = p.map sourcesZipPath := by
  intro p
  induction p with
  | nil => intro h; rfl
  | cons a rest ih =>
      intro h
      obtain ⟨v, hv⟩ := Option.isSome_iff_exists.mp (h a (List.mem_cons_self a rest))
      simp [List.filterMap_cons, hv,
        ih (fun l hl => h l (List.mem_cons_of_mem a hl))]

/-- When some level's archive is missing, the post-barrier loop writes
and unlinks exactly the successful prefix of the sorted level list, then
dies with `KeyError` at the first missing level. -/
theorem assembleLoop_failure {α : Type} (archives : Nat → Option α) :
    ∀ (s : List Nat), (∃ l ∈ s, archives l = none) →
      ∃ m t, s.dropWhile (fun l => (archives l).isSome) = m :: t ∧
        assembleLoop archives s =
          ⟨(s.takeWhile (fun l => (archives l).isSome)).filterMap
              (fun l => (archives l).map (fun v => (sourcesZipPath l, v))),
            s.takeWhile (fun l => (archives l).isSome), some m⟩ := by
  intro s
  induction s with
  | nil => intro h; simp at h
  | cons a rest ih =>
      intro h
      cases ha : archives a with
      | none =>
          refine ⟨a, rest, ?_, ?_⟩
          · rw [List.dropWhile_cons_of_neg (by simp [ha])]
          · rw [List.takeWhile_cons_of_neg (by simp [ha])]
            simp [assembleLoop, ha]
      | some v =>
          have hfail2 : ∃ l ∈ rest, archives l = none := by
            obtain ⟨l, hl, hln⟩ := h
            rcases List.mem_cons.mp hl with rfl | hl2
            · rw [ha] at hln; cases hln
            · exact ⟨l, hl2, hln⟩
          obtain ⟨m, t, hd, hres⟩ := ih hfail2
          refine ⟨m, t, ?_, ?_⟩
          · rw [List.dropWhile_cons_of_pos (by simp [ha])]
            exact hd
          · rw [List.takeWhile_cons_of_pos (by simp [ha])]
            simp [assembleLoop, ha, hres, List.filterMap_cons]

/-- C2 (amended): if any packaging task fails, assembly dies after the
barrier with an uncaught `KeyError` naming the smallest failing API
level — not an aggregated error: per-level members are written (and
their temporary files deleted) exactly for the successful levels below
the first failure, leaving a partially filled final archive, while the
temporary files of every failing task — and of every task at or beyond
the first failure — are never deleted. -/
theorem assemble_failure_behavior {α : Type} (outcome : Nat → Option α)
    (sdks completion : List Nat) (hc : completion.Perm sdks)
    (hfail : ∃ l ∈ sdks, outcome l = none) :
    ∃ m,
      (generate_plugins outcome sdks completion).errorAt = some m ∧
      m ∈ sdks ∧ outcome m = none ∧
      (∀ l ∈ sdks, outcome l = none → m ≤ l) ∧
      (generate_plugins outcome sdks completion).deleted
        = (pySorted sdks).takeWhile (fun l => (outcome l).isSome) ∧
      (generate_plugins outcome sdks completion).members.map Prod.fst
        = ((generate_plugins outcome sdks completion).deleted).map sourcesZipPath ∧
      ∀ l ∈ sdks, outcome l = none →
        l ∉ (generate_plugins outcome sdks completion).deleted := by
  have hmemS : ∀ k, k ∈ pySorted sdks ↔ k ∈ sdks := fun k =>
    (List.perm_insertionSort _ sdks).mem_iff
  have harch : ∀ k ∈ pySorted sdks,
      sdkArchivesMap outcome completion k = outcome k := fun k hk =>
    sdkArchivesMap_of_mem outcome completion k (hc.mem_iff.mpr ((hmemS k).mp hk))
  have hsorted : List.Sorted (· ≤ ·) (pySorted sdks) := List.sorted_insertionSort _ _
  obtain ⟨l0, hl0, hl0n⟩ := hfail
  obtain ⟨m, t, hd, hres⟩ := assembleLoop_failure (sdkArchivesMap outcome completion)
    (pySorted sdks)
    ⟨l0, (hmemS l0).mpr hl0, by rw [harch l0 ((hmemS l0).mpr hl0)]; exact hl0n⟩
  have hsplit : pySorted sdks
      = (pySorted sdks).takeWhile (fun l => ((sdkArchivesMap outcome completion l).isSome))
        ++ m :: t := by
    rw [← hd, List.takeWhile_append_dropWhile]
  have hmS : m ∈ pySorted sdks := by
    rw [hsplit]
    exact List.mem_append_right _ (List.mem_cons_self m t)
  have hm_sdks : m ∈ sdks := (hmemS m).mp hmS
  have hm_none : outcome m = none := by
    have := dropWhile_head_not _ _ _ _ hd
    rw [harch m hmS] at this
    exact Option.not_isSome_iff_eq_none.mp (by simp [this])
  have hpred_out : ∀ x ∈ pySorted sdks,
      ((sdkArchivesMap outcome completion x).isSome : Bool) = (outcome x).isSome := by
    intro x hx
    rw [harch x hx]
  have hdel_eq : (pySorted sdks).takeWhile
        (fun l => (sdkArchivesMap outcome completion l).isSome)
      = (pySorted sdks).takeWhile (fun l => (outcome l).isSome) :=
    takeWhile_congr_mem _ _ _ hpred_out
  refine ⟨m, ?_, hm_sdks, hm_none, ?_, ?_, ?_, ?_⟩
  · unfold generate_plugins
    rw [hres]
  · intro l hl hln
    have hlS : l ∈ pySorted sdks := (hmemS l).mpr hl
    rw [hsplit] at hlS
    rcases List.mem_append.mp hlS with hlp | hlmt
    · exfalso
      have := mem_takeWhile_pred _ _ _ hlp
      rw [harch l ((hmemS l).mpr hl)] at this
      rw [hln] at this
      cases this
    · rcases List.mem_cons.mp hlmt with rfl | hlt
      · exact Nat.le_refl _
      · have hsl : List.Sorted (· ≤ ·) (m :: t) := by
          refine List.Pairwise.sublist ?_ hsorted
          rw [hsplit]
          exact List.sublist_append_right _ _
        exact List.rel_of_sorted_cons hsl l hlt
  · unfold generate_plugins
    rw [hres]
    exact hdel_eq
  · unfold generate_plugins
    rw [hres]
    have hall : ∀ l ∈ (pySorted sdks).takeWhile
        (fun l => (sdkArchivesMap outcome completion l).isSome),
        ((sdkArchivesMap outcome completion l).isSome : Bool) = true :=
      fun l hl => mem_takeWhile_pred _ _ l hl
    rw [map_fst_filterMap_archives _ _ hall]
  · intro l hl hln hmem
    unfold generate_plugins at hmem
    rw [hres] at hmem
    have := mem_takeWhile_pred _ _ _ hmem
    rw [harch l ((hmemS l).mpr hl), hln] at this
    cases this

/-- C2 (amended) witness: levels {1, 2, 3} with the task for level 2
failing: the member and deletion for level 1 happen, then `KeyError` at
level 2; levels 2 and 3 leak their temporary files. -/
theorem assemble_failure_behavior_witness :
    ([3, 1, 2] : List Nat).Perm [1, 2, 3] ∧
    (∃ l ∈ ([1, 2, 3] : List Nat),
      (fun l => if l = 2 then none else some l) l = (none : Option Nat)) ∧
    (∃ m,
      (generate_plugins (fun l => if l = 2 then none else some l)
          [1, 2, 3] [3, 1, 2]).errorAt = some m ∧
      m ∈ ([1, 2, 3] : List Nat) ∧
      (fun l => if l = 2 then none else some l) m = (none : Option Nat) ∧
      (∀ l ∈ ([1, 2, 3] : List Nat),
        (fun l => if l = 2 then none else some l) l = (none : Option Nat) → m ≤ l) ∧
      (generate_plugins (fun l => if l = 2 then none else some l)
          [1, 2, 3] [3, 1, 2]).deleted
        = (pySorted [1, 2, 3]).takeWhile
            (fun l => ((if l = 2 then none else some l : Option Nat)).isSome) ∧
      (generate_plugins (fun l => if l = 2 then none else some l)
          [1, 2, 3] [3, 1, 2]).members.map Prod.fst
        = ((generate_plugins (fun l => if l = 2 then none else some l)
            [1, 2, 3] [3, 1, 2]).deleted).map sourcesZipPath ∧
      ∀ l ∈ ([1, 2, 3] : List Nat),
        (fun l => if l = 2 then none else some l) l = (none : Option Nat) →
          l ∉ (generate_plugins (fun l => if l = 2 then none else some l)
              [1, 2, 3] [3, 1, 2]).deleted) := by
  refine ⟨by decide, ⟨2, by decide, by decide⟩, ?_⟩
  exact assemble_failure_behavior (fun l => if l = 2 then none else some l)
    [1, 2, 3] [3, 1, 2] (by decide) ⟨2, by decide, by decide⟩

/-- The `files` component of a frame names exactly the listing's regular
files. -/
theorem mem_fileNames (x : String) :
    ∀ (ts : List FsTree), x ∈ fileNames ts ↔ FsTree.file x ∈ ts := by
  intro ts
  induction ts with
  | nil => simp [fileNames]
  | cons t rest ih =>
      cases t with
      | file n =>
          simp only [fileNames, List.filterMap_cons] at ih ⊢
          simp [List.mem_cons, ih]
      | dir n cs =>
          simp only [fileNames, List.filterMap_cons] at ih ⊢
          simp [ih]

/-- Membership in the reference file enumeration of a listing: a path is
either a direct file of the listing or lies below one of its
subdirectories. -/
theorem mem_relFilesF (x : String) (p : List String) :
    ∀ (ts : List FsTree),
      x ∈ relFilesF p ts ↔
        ((∃ n, FsTree.file n ∈ ts ∧ x = joinPath (p ++ [n])) ∨
         ∃ n cs, FsTree.dir n cs ∈ ts ∧ x ∈ relFilesF (p ++ [n]) cs) := by
  intro ts
  induction ts with
  | nil => simp [relFilesF]
  | cons t rest ih =>
      cases t with
      | file n =>
          rw [relFilesF, relFilesT]
          simp only [List.mem_append, List.mem_singleton, List.not_mem_nil, or_false,
            ih, List.mem_cons]
          constructor
          · rintro (rfl | (⟨n2, hn2, rfl⟩ | ⟨n2, cs2, hn2, hx⟩))
            · exact Or.inl ⟨n, Or.inl rfl, rfl⟩
            · exact Or.inl ⟨n2, Or.inr hn2, rfl⟩
            · exact Or.inr ⟨n2, cs2, Or.inr hn2, hx⟩
          · rintro (⟨n2, (h2 | hn2), rfl⟩ | ⟨n2, cs2, (h2 | hn2), hx⟩)
            · cases h2; exact Or.inl rfl
            · exact Or.inr (Or.inl ⟨n2, hn2, rfl⟩)
            · cases h2
            · exact Or.inr (Or.inr ⟨n2, cs2, hn2, hx⟩)
      | dir n cs =>
          rw [relFilesF, relFilesT]
          simp only [List.mem_append, ih, List.mem_cons]
          constructor
          · rintro (hx | (⟨n2, hn2, rfl⟩ | ⟨n2, cs2, hn2, hx⟩))
            · exact Or.inr ⟨n, cs, Or.inl rfl, hx⟩
            · exact Or.inl ⟨n2, Or.inr hn2, rfl⟩
            · exact Or.inr ⟨n2, cs2, Or.inr hn2, hx⟩
          · rintro (⟨n2, (h2 | hn2), rfl⟩ | ⟨n2, cs2, (h2 | hn2), hx⟩)
            · cases h2
            · exact Or.inr (Or.inl ⟨n2, hn2, rfl⟩)
            · cases h2; exact Or.inl hx
            · exact Or.inr (Or.inr ⟨n2, cs2, hn2, hx⟩)

/-- Paths of appended member lists. -/
theorem entryPaths_append (a b : List ZipEntry) :
    entryPaths (a ++ b) = entryPaths a ++ entryPaths b := List.map_append _ _ _

/-- The walk loop over one more frame. -/
theorem packFrames_cons (excl : Option String) (fr : WalkFrame)
    (frames : List WalkFrame) :
    packFrames excl (fr :: frames) = frameEntries excl fr ++ packFrames excl frames := by
  simp [packFrames]

/-- The walk loop over concatenated frame lists. -/
theorem packFrames_append (excl : Option String) (f1 f2 : List WalkFrame) :
    packFrames excl (f1 ++ f2) = packFrames excl f1 ++ packFrames excl f2 := by
  simp [packFrames]

/-- Membership in the member paths written for one `os.walk` frame. -/
theorem mem_paths_frameEntries (excl : Option String) (x : String)
    (root : List String) (ds : List String) :
    ∀ (fs : List String),
      x ∈ entryPaths (frameEntries excl ⟨root, ds, fs⟩) ↔
        ((∃ n, n ∈ fs ∧ x = joinPath (root ++ [n])) ∧ some x ≠ excl) := by
  intro fs
  induction fs with
  | nil => simp [frameEntries, entryPaths]
  | cons a rest ih =>
      simp only [frameEntries, entryPaths] at ih ⊢
      rw [List.filterMap_cons]
      by_cases he : some (joinPath (root ++ [a])) = excl
      · simp only [he, ite_true, if_pos]
        rw [ih]
        constructor
        · rintro ⟨⟨n, hn, rfl⟩, hne⟩
          exact ⟨⟨n, List.mem_cons_of_mem a hn, rfl⟩, hne⟩
        · rintro ⟨⟨n, hn, rfl⟩, hne⟩
          rcases List.mem_cons.mp hn with rfl | hn2
          · exact absurd he hne
          · exact ⟨⟨n, hn2, rfl⟩, hne⟩
      · simp only [he, ite_false, if_neg, not_false_eq_true]
        rw [List.map_cons, List.mem_cons, ih]
        constructor
        · rintro (rfl | ⟨⟨n, hn, rfl⟩, hne⟩)
          · exact ⟨⟨a, List.mem_cons_self a rest, rfl⟩, he⟩
          · exact ⟨⟨n, List.mem_cons_of_mem a hn, rfl⟩, hne⟩
        · rintro ⟨⟨n, hn, rfl⟩, hne⟩
          rcases List.mem_cons.mp hn with rfl | hn2
          · exact Or.inl rfl
          · exact Or.inr ⟨⟨n, hn2, rfl⟩, hne⟩

mutual

/-- Member paths contributed by the frames below one listing entry. -/
theorem mem_paths_walkTree (excl : Option String) (x : String) (p : List String)
    (t : FsTree) :
    x ∈ entryPaths (packFrames excl (walkTree p t)) ↔
      ((∃ n cs, t = FsTree.dir n cs ∧ x ∈ relFilesF (p ++ [n]) cs) ∧ some x ≠ excl) :=
  match t with
  | .file n => by simp [walkTree, packFrames, entryPaths]
  | .dir n cs => by
      have hF := mem_paths_walkForest excl x (p ++ [n]) cs
      rw [walkTree, packFrames_cons, entryPaths_append, List.mem_append,
        mem_paths_frameEntries, hF]
      constructor
      · rintro (⟨⟨n2, hn2, rfl⟩, hne⟩ | ⟨⟨n2, cs2, hn2, hx⟩, hne⟩)
        · exact ⟨⟨n, cs, rfl, (mem_relFilesF _ _ cs).mpr
            (Or.inl ⟨n2, (mem_fileNames n2 cs).mp hn2, rfl⟩)⟩, hne⟩
        · exact ⟨⟨n, cs, rfl, (mem_relFilesF _ _ cs).mpr
            (Or.inr ⟨n2, cs2, hn2, hx⟩)⟩, hne⟩
      · rintro ⟨⟨n2, cs2, heq, hx⟩, hne⟩
        injection heq with hn1 hc1
        subst hn1
        subst hc1
        rcases (mem_relFilesF x (p ++ [n]) cs).mp hx with
          ⟨n3, hn3, rfl⟩ | ⟨n3, cs3, hn3, hx3⟩
        · exact Or.inl ⟨⟨n3, (mem_fileNames n3 cs).mpr hn3, rfl⟩, hne⟩
        · exact Or.inr ⟨⟨n3, cs3, hn3, hx3⟩, hne⟩

/-- Member paths contributed by the frames below a listing. -/
theorem mem_paths_walkForest (excl : Option String) (x : String) (p : List String)
    (ts : List FsTree) :
    x ∈ entryPaths (packFrames excl (walkForest p ts)) ↔
      ((∃ n cs, FsTree.dir n cs ∈ ts ∧ x ∈ relFilesF (p ++ [n]) cs) ∧ some x ≠ excl) :=
  match ts with
  | [] => by simp [walkForest, packFrames, entryPaths]
  | t :: ts2 => by
      have hT := mem_paths_walkTree excl x p t
      have hF := mem_paths_walkForest excl x p ts2
      rw [walkForest, packFrames_append, entryPaths_append, List.mem_append, hT, hF]
      constructor
      · rintro (⟨⟨n2, cs2, rfl, hx⟩, hne⟩ | ⟨⟨n2, cs2, hn2, hx⟩, hne⟩)
        · exact ⟨⟨n2, cs2, List.mem_cons_self _ _, hx⟩, hne⟩
        · exact ⟨⟨n2, cs2, List.mem_cons_of_mem t hn2, hx⟩, hne⟩
      · rintro ⟨⟨n2, cs2, hn2, hx⟩, hne⟩
        rcases List.mem_cons.mp hn2 with heq | hn3
        · exact Or.inl ⟨⟨n2, cs2, heq.symm, hx⟩, hne⟩
        · exact Or.inr ⟨⟨n2, cs2, hn3, hx⟩, hne⟩

end

/-- Every member either function ever writes is a file entry. -/
theorem packFrames_no_dir_entries (excl : Option String) (frames : List WalkFrame) :
    (packFrames excl frames).all (fun e => !e.isDir) = true := by
  rw [List.all_eq_true]
  intro e he
  obtain ⟨fr, _hfr, hee⟩ := List.mem_flatMap.mp he
  obtain ⟨n, _hn, hfn⟩ := List.mem_filterMap.mp hee
  simp only [] at hfn
  by_cases hc : some (joinPath (fr.root ++ [n])) = excl
  · rw [if_pos hc] at hfn
    cases hfn
  · rw [if_neg hc] at hfn
    injection hfn with h2
    rw [← h2]
    rfl

/-- C9: the archive produced by the walk-and-write loop contains exactly
the regular files of the tree, each under its path relative to the
source root, with only the file whose relative path equals the exclusion
omitted; no directory entries are ever written.  The source hard-codes
the two exclusion instances: `package_sdk_source` drops exactly
`source.properties`, `repack` drops nothing; `pack` — modelled from the
spec with the exclusion as a parameter — restricts to them.  The final
conjuncts check the claim's example: packing `{a.txt, sub/b.txt}` yields
exactly those members, and exclusion `a.txt` leaves only `sub/b.txt`. -/
theorem pack_members_exact :
    (∀ (excl : Option String) (ts : List FsTree) (x : String),
        x ∈ entryPaths (pack ts excl) ↔ (x ∈ relFiles ts ∧ some x ≠ excl)) ∧
    (∀ (excl : Option String) (ts : List FsTree),
        (pack ts excl).all (fun e => !e.isDir) = true) ∧
    package_sdk_source = (fun ts => pack ts (some "source.properties")) ∧
    repack = (fun ts => pack ts none) ∧
    entryPaths (pack [FsTree.file "a.txt", FsTree.dir "sub" [FsTree.file "b.txt"]] none)
      = ["a.txt", "sub/b.txt"] ∧
    entryPaths
        (pack [FsTree.file "a.txt", FsTree.dir "sub" [FsTree.file "b.txt"]]
          (some "a.txt"))
      = ["sub/b.txt"] := by
  refine ⟨?_, ?_, rfl, rfl, by decide, by decide⟩
  · intro excl ts x
    have hF := mem_paths_walkForest excl x [] ts
    unfold pack walk relFiles
    rw [packFrames_cons, entryPaths_append, List.mem_append,
      mem_paths_frameEntries, hF, mem_relFilesF x [] ts]
    constructor
    · rintro (⟨⟨n, hn, hx⟩, hne⟩ | ⟨⟨n, cs, hn, hx⟩, hne⟩)
      · exact ⟨Or.inl ⟨n, (mem_fileNames n ts).mp hn, hx⟩, hne⟩
      · exact ⟨Or.inr ⟨n, cs, hn, hx⟩, hne⟩
    · rintro ⟨(⟨n, hn, hx⟩ | ⟨n, cs, hn, hx⟩), hne⟩
      · exact Or.inl ⟨⟨n, (mem_fileNames n ts).mpr hn, hx⟩, hne⟩
      · exact Or.inr ⟨⟨n, cs, hn, hx⟩, hne⟩
  · intro excl ts
    exact packFrames_no_dir_entries excl (walk ts)

end AndSource
